import Mathlib

/-!
Verification development for the elevations-populator app
(src/elevations_populator/app.py, cells.py, tiles.py).

The H3 cell hierarchy (h3.api.basic_int, version 3) is modelled concretely: a
cell is a base cell index plus the list of child digits, one digit in 0..6 per
resolution level, so the resolution is the digit count.  The external
collaborators are abstracted as oracles: h3_to_geo as a function from cells to
coordinates, the S3 object store as a partial map from tile reference
coordinates to loaded tiles, and a loaded rasterio tile as the elevation it
reports at each coordinate.  Floating-point elevations are modelled as exact
rationals.  All definitions are structurally recursive (bounded recursions use
an explicit fuel that provably suffices) so that they evaluate on concrete
inputs.
-/

namespace ElevationsPopulator

/-- Model of an H3 cell index: a base cell number together with the list of
child digits (one digit per resolution level below the base).  The resolution
of a cell is the number of digits. -/
structure H3Cell where
  base : Nat
  digits : List (Fin 7)
deriving DecidableEq

/-- Model of h3_get_resolution: the number of child digits. -/
def h3_get_resolution (c : H3Cell) : Nat := c.digits.length

/-- Model of h3_to_parent: drop the last digit. -/
def h3_to_parent (c : H3Cell) : H3Cell := ⟨c.base, c.digits.dropLast⟩

/-- Model of h3_to_children (h3 version 3): the 7 cells extending the digit
list by one digit.  A cell at resolution 15 (or deeper) has no children: the
library returns an empty collection when the child resolution would exceed 15
(maxH3ToChildrenSize returns 0 for an invalid child resolution). -/
def h3_to_children (c : H3Cell) : List H3Cell :=
  if 15 ≤ c.digits.length then []
  else (List.finRange 7).map fun d => ⟨c.base, c.digits ++ [d]⟩

/-- Deduplication keeping the first occurrence of each element, as a Python
set or dict comprehension over an iterable does.  The seen accumulator makes
the recursion structural. -/
def pyDedupAux [DecidableEq α] (seen : List α) : List α → List α
  | [] => []
  | a :: rest => if a ∈ seen then pyDedupAux seen rest else a :: pyDedupAux (a :: seen) rest

/-- Deduplication keeping first occurrences, modelling iteration over a Python
set built from a list. -/
def pyDedup [DecidableEq α] (l : List α) : List α := pyDedupAux [] l

/-- Recursion kernel for get_descendents_down_to_maximum_resolution.  The fuel
makes the recursion structural; fuel 16 always suffices because the digit list
grows by one per recursive step and h3_to_children is empty from resolution 15
on. -/
def descendentsAux (maximum_resolution : Nat) : Nat → H3Cell → List H3Cell
  | 0, _ => []
  | fuel + 1, cell =>
    if h3_get_resolution cell = maximum_resolution then [cell]
    else (h3_to_children cell).flatMap (descendentsAux maximum_resolution fuel)

/-- Model of cells.get_descendents_down_to_maximum_resolution (the identical
method App._get_descendents_down_to_maximum_resolution has MAXIMUM_RESOLUTION
as the bound): return the cell itself once the maximum resolution is reached,
otherwise recurse into the 7 children and union the results. -/
def get_descendents_down_to_maximum_resolution (cell : H3Cell) (maximum_resolution : Nat) :
    List H3Cell :=
  descendentsAux maximum_resolution 16 cell

/-- Recursion kernel for the while loop of get_ancestors_up_to_minimum_resolution:
while the resolution is above the minimum, move to the parent and append it.
Fuel equal to the starting resolution always suffices because the resolution
drops by one per iteration and the loop guard fails at resolution 0 anyway. -/
def ancestorsLoopAux (minimum_resolution : Nat) : Nat → H3Cell → List H3Cell
  | 0, _ => []
  | fuel + 1, cell =>
    if minimum_resolution < h3_get_resolution cell then
      h3_to_parent cell :: ancestorsLoopAux minimum_resolution fuel (h3_to_parent cell)
    else []

/-- Model of cells.get_ancestors_up_to_minimum_resolution (and the identical
method App._get_ancestors_up_to_minimum_resolution): a cell already at the
minimum resolution is returned as a one-element list, otherwise parents are
appended while the resolution is above the minimum. -/
def get_ancestors_up_to_minimum_resolution (cell : H3Cell) (minimum_resolution : Nat) :
    List H3Cell :=
  if h3_get_resolution cell = minimum_resolution then [cell]
  else ancestorsLoopAux minimum_resolution (h3_get_resolution cell) cell

/-- Heads of a list of lists, as zip needs them: none when any list is empty. -/
def allHeads : List (List α) → Option (List α)
  | [] => some []
  | [] :: _ => none
  | (a :: _) :: rest =>
    match allHeads rest with
    | none => none
    | some hs => some (a :: hs)

/-- Recursion kernel for Python zip over a list of lists: take all heads while
every list is nonempty.  Fuel bounded by the length of the first list. -/
def transposeAux : Nat → List (List α) → List (List α)
  | 0, _ => []
  | fuel + 1, ls =>
    match allHeads ls with
    | none => []
    | some heads => heads :: transposeAux fuel (ls.map List.tail)

/-- Model of Python zip(*lists): truncating transpose, empty when called with
no lists. -/
def pyZipTranspose (ls : List (List α)) : List (List α) :=
  match ls with
  | [] => []
  | l :: rest => transposeAux l.length (l :: rest)

/-- Model of cells.get_ancestors_up_to_minimum_resolution_as_pyramid (and the
identical App method): per-cell ancestor lists are transposed with zip and each
level is deduplicated into a set. -/
def get_ancestors_up_to_minimum_resolution_as_pyramid (cells : List H3Cell)
    (minimum_resolution : Nat) : List (List H3Cell) :=
  (pyZipTranspose (cells.map fun c => get_ancestors_up_to_minimum_resolution c minimum_resolution)).map
    pyDedup

/-- Lookup in a Python dict modelled as an association list (first match). -/
def dictLookup [DecidableEq κ] (m : List (κ × ν)) (k : κ) : Option ν :=
  (m.find? fun e => e.1 = k).map (·.2)

/-- Membership test for a Python dict modelled as an association list. -/
def dictContains [DecidableEq κ] (m : List (κ × ν)) (k : κ) : Bool :=
  m.any fun e => e.1 = k

/-- Assignment d[k] = v on a Python dict modelled as an association list:
replace the value in place when the key exists, append otherwise. -/
def dictInsert [DecidableEq κ] (m : List (κ × ν)) (k : κ) (v : ν) : List (κ × ν) :=
  if dictContains m k then m.map fun e => if e.1 = k then (k, v) else e
  else m ++ [(k, v)]

/-- Model of numpy.mean on a list of values, in exact rational arithmetic. -/
def npMean (l : List ℚ) : ℚ := l.sum / l.length

/-- Failure events the app can surface: the ValueError of _validate_cells
naming the offending cell and its resolution, the IndexError of an empty
ancestor list, the botocore client error for a failed tile download, the
KeyError of a tile lookup in _get_elevation, and the KeyError of a child
elevation lookup in the aggregation loop. -/
inductive RunError where
  | outOfRangeResolution (cell : H3Cell) (resolution : Nat)
  | indexError
  | clientError (tileCoordinate : ℤ × ℤ)
  | tileKeyError (tileCoordinate : ℤ × ℤ)
  | keyError (cell : H3Cell)
deriving DecidableEq

/-- A loaded raster tile, abstracted as the elevation it reports at a given
latitude and longitude (rasterio read of band 1 plus pixel indexing). -/
abbrev Tile := ℚ → ℚ → ℚ

/-- The remote object store, abstracted as a partial map from tile reference
coordinates to tiles; none models the object not existing in the bucket. -/
abbrev TileStore := ℤ × ℤ → Option Tile

/-- Truncation toward zero, as Python math.trunc behaves on floats. -/
def mathTrunc (x : ℚ) : ℤ := if x < 0 then ⌈x⌉ else ⌊x⌋

/-- Model of tiles.get_tile_reference_coordinate (and the identical static
method App._get_tile_reference_coordinate): subtract one degree from each
negative component, then truncate toward zero. -/
def get_tile_reference_coordinate (latitude longitude : ℚ) : ℤ × ℤ :=
  (mathTrunc (if latitude < 0 then latitude - 1 else latitude),
    mathTrunc (if longitude < 0 then longitude - 1 else longitude))

/-- Model of App._download_and_load_elevation_tile: fetch one tile from the
object store; a missing object makes s3.download_fileobj raise, modelled as a
clientError result. -/
def download_and_load_elevation_tile (store : TileStore) (rc : ℤ × ℤ) : Except RunError Tile :=
  match store rc with
  | none => .error (.clientError rc)
  | some tile => .ok tile

/-- Model of the dict comprehension in App._download_and_load_elevation_tiles:
downloads are attempted sequentially and the first failure propagates, so the
remaining coordinates are not fetched.  The second component is the list of
coordinates a fetch was attempted for, in order. -/
def download_and_load_elevation_tiles (store : TileStore) :
    List (ℤ × ℤ) → Except RunError (List ((ℤ × ℤ) × Tile)) × List (ℤ × ℤ)
  | [] => (.ok [], [])
  | rc :: rest =>
    match store rc with
    | none => (.error (.clientError rc), [rc])
    | some tile =>
      match download_and_load_elevation_tiles store rest with
      | (.ok cache, att) => (.ok ((rc, tile) :: cache), rc :: att)
      | (.error e, att) => (.error e, rc :: att)

/-- Model of App._get_elevation: look the tile up by the reference coordinate
of the given point (KeyError when absent from the cache) and read the
elevation at the point from it. -/
def get_elevation (tiles : List ((ℤ × ℤ) × Tile)) (latitude longitude : ℚ) :
    Except RunError ℚ :=
  match dictLookup tiles (get_tile_reference_coordinate latitude longitude) with
  | none => .error (.tileKeyError (get_tile_reference_coordinate latitude longitude))
  | some tile => .ok (tile latitude longitude)

/-- Model of App._get_elevations: map every cell to the elevation sampled at
its centrepoint coordinates; the first sampling failure propagates. -/
def get_elevations (tiles : List ((ℤ × ℤ) × Tile)) :
    List (H3Cell × ℚ × ℚ) → Except RunError (List (H3Cell × ℚ))
  | [] => .ok []
  | p :: rest =>
    match get_elevation tiles p.2.1 p.2.2 with
    | .error e => .error e
    | .ok v =>
      match get_elevations tiles rest with
      | .error e => .error e
      | .ok m => .ok ((p.1, v) :: m)

/-- Model of App._validate_cells: raise a ValueError naming the first cell
whose resolution lies outside the inclusive configured range. -/
def validate_cells (minimum_resolution maximum_resolution : Nat) :
    List H3Cell → Except RunError Unit
  | [] => .ok ()
  | c :: rest =>
    if h3_get_resolution c < minimum_resolution ∨ maximum_resolution < h3_get_resolution c then
      .error (.outOfRangeResolution c (h3_get_resolution c))
    else validate_cells minimum_resolution maximum_resolution rest

/-- Model of the list comprehension gathering the elevations of the children
of an ancestor from the elevation map: the first absent child raises a
KeyError. -/
def lookupAll (m : List (H3Cell × ℚ)) : List H3Cell → Except RunError (List ℚ)
  | [] => .ok []
  | c :: rest =>
    match dictLookup m c with
    | none => .error (.keyError c)
    | some v =>
      match lookupAll m rest with
      | .error e => .error e
      | .ok vs => .ok (v :: vs)

/-- One level of the aggregation loop in
App._add_average_elevations_for_ancestors_up_to_minimum_resolution: for each
ancestor, gather the elevations of its children from the map (KeyError when a
child is absent) and store their mean under the ancestor. -/
def aggregateLevel (m : List (H3Cell × ℚ)) :
    List H3Cell → Except RunError (List (H3Cell × ℚ))
  | [] => .ok m
  | ancestor :: rest =>
    match lookupAll m (h3_to_children ancestor) with
    | .error e => .error e
    | .ok childElevations =>
      aggregateLevel (dictInsert m ancestor (npMean childElevations)) rest

/-- Fold of aggregateLevel over the pyramid levels, finest level first. -/
def aggregateLevels (m : List (H3Cell × ℚ)) :
    List (List H3Cell) → Except RunError (List (H3Cell × ℚ))
  | [] => .ok m
  | level :: rest =>
    match aggregateLevel m level with
    | .error e => .error e
    | .ok m2 => aggregateLevels m2 rest

/-- Model of App._add_average_elevations_for_ancestors_up_to_minimum_resolution:
build the ancestor pyramid from the keys of the elevation map and fold the
per-level averaging over it, finest level first. -/
def add_average_elevations_for_ancestors_up_to_minimum_resolution (minimum_resolution : Nat)
    (m : List (H3Cell × ℚ)) : Except RunError (List (H3Cell × ℚ)) :=
  aggregateLevels m
    (get_ancestors_up_to_minimum_resolution_as_pyramid (m.map (·.1)) minimum_resolution)

/-- Last elements of the per-cell ancestor lists (IndexError on an empty
list), in input order. -/
def lastAncestors (minimum_resolution : Nat) : List H3Cell → Except RunError (List H3Cell)
  | [] => .ok []
  | c :: rest =>
    match (get_ancestors_up_to_minimum_resolution c minimum_resolution).getLast? with
    | none => .error RunError.indexError
    | some a =>
      match lastAncestors minimum_resolution rest with
      | .error e => .error e
      | .ok ancestors => .ok (a :: ancestors)

/-- Model of the set comprehension in App.run computing the minimum resolution
ancestors: the last element of each ancestor list, deduplicated. -/
def minimum_resolution_ancestors (minimum_resolution : Nat) (cells : List H3Cell) :
    Except RunError (List H3Cell) :=
  match lastAncestors minimum_resolution cells with
  | .error e => .error e
  | .ok lasts => .ok (pyDedup lasts)

/-- Model of App.run up to the handoff to the storage sink: validate, expand to
the maximum resolution frontier, download the needed tiles, sample the frontier
elevations, and aggregate averages up to the minimum resolution.  The result
pairs the outcome (the completed elevation map handed to storage, or the first
error raised) with the list of tile fetches attempted. -/
def run (minimum_resolution maximum_resolution : Nat) (geo : H3Cell → ℚ × ℚ)
    (store : TileStore) (cells : List H3Cell) :
    Except RunError (List (H3Cell × ℚ)) × List (ℤ × ℤ) :=
  match validate_cells minimum_resolution maximum_resolution cells with
  | .error e => (.error e, [])
  | .ok _ =>
    match minimum_resolution_ancestors minimum_resolution cells with
    | .error e => (.error e, [])
    | .ok ancestors =>
      let frontier := pyDedup (ancestors.flatMap fun c =>
        get_descendents_down_to_maximum_resolution c maximum_resolution)
      let cellsCoords := frontier.map fun c => (c, geo c)
      let refCoords := pyDedup (cellsCoords.map fun p =>
        get_tile_reference_coordinate p.2.1 p.2.2)
      match download_and_load_elevation_tiles store refCoords with
      | (.error e, att) => (.error e, att)
      | (.ok tiles, att) =>
        match get_elevations tiles cellsCoords with
        | .error e => (.error e, att)
        | .ok m0 =>
          match add_average_elevations_for_ancestors_up_to_minimum_resolution
              minimum_resolution m0 with
          | .error e => (.error e, att)
          | .ok m => (.ok m, att)

/-- The storage sink selected by App._store_elevations. -/
inductive StorageSink where
  | localFile (path : String)
  | database
deriving DecidableEq

/-- Python or on an optional string: the left operand unless it is falsy (None
or the empty string). -/
def pyOrString (v : Option String) (dflt : String) : String :=
  match v with
  | some s => if s = "" then dflt else s
  | none => dflt

/-- Model of App._store_elevations: the local sink exactly when the configured
storage_location equals the string local, the graph database sink otherwise. -/
def store_elevations (storage_location : String) (local_storage_path : Option String)
    (timestamp : String) : StorageSink :=
  if storage_location = "local" then
    .localFile (pyOrString local_storage_path ("elevations-" ++ timestamp ++ ".json"))
  else .database

/-- Model of the cleanup loop in the finally block of App.run: os.remove is
called on each downloaded tile path in order, with no exception handling, so a
failing removal (remove p = false) propagates and ends the loop.  Returns the
list of paths a deletion was attempted on and whether the loop completed. -/
def delete_downloaded_tiles (remove : String → Bool) : List String → List String × Bool
  | [] => ([], true)
  | p :: rest =>
    if remove p then
      let r := delete_downloaded_tiles remove rest
      (p :: r.1, r.2)
    else ([p], false)

/-- Iterated parent of a cell, used to characterise ancestor lists. -/
def iterParent : Nat → H3Cell → H3Cell
  | 0, c => c
  | n + 1, c => iterParent n (h3_to_parent c)

/-! Basic facts about the cell hierarchy model. -/

theorem res_of_mem_children {c c' : H3Cell} (h : c' ∈ h3_to_children c) :
    h3_get_resolution c' = h3_get_resolution c + 1 := by
  unfold h3_to_children at h
  by_cases h15 : 15 ≤ c.digits.length
  · rw [if_pos h15] at h
    cases h
  · rw [if_neg h15] at h
    obtain ⟨d, _, rfl⟩ := List.mem_map.mp h
    simp [h3_get_resolution]

theorem descendentsAux_eq_nil (maximum_resolution : Nat) :
    ∀ (fuel : Nat) (c : H3Cell), maximum_resolution < h3_get_resolution c →
      descendentsAux maximum_resolution fuel c = [] := by
  intro fuel
  induction fuel with
  | zero => intro c _; rfl
  | succ n ih =>
    intro c h
    rw [descendentsAux, if_neg (by omega)]
    rw [List.flatMap_eq_nil_iff]
    intro c' hc'
    exact ih c' (by have := res_of_mem_children hc'; omega)

theorem ancestorsLoopAux_eq_nil (minimum_resolution fuel : Nat) (c : H3Cell)
    (h : ¬ minimum_resolution < h3_get_resolution c) :
    ancestorsLoopAux minimum_resolution fuel c = [] := by
  cases fuel with
  | zero => rfl
  | succ n => rw [ancestorsLoopAux, if_neg h]

/-- C4 counterexample: for the concrete resolution 15 cell and maximum
resolution 14, get_descendents_down_to_maximum_resolution returns the empty
set rather than failing with an InvalidResolution condition. -/
theorem descendents_below_cell_resolution_cex :
    get_descendents_down_to_maximum_resolution ⟨0, List.replicate 15 0⟩ 14 = [] := by decide

/-- C4 (amended): for every cell and every maximum resolution strictly below
the resolution of the cell, get_descendents_down_to_maximum_resolution returns
the empty set (the recursion bottoms out at resolution 15, where the hierarchy
has no children); no failure is raised. -/
theorem descendents_below_cell_resolution (cell : H3Cell) (maximum_resolution : Nat)
    (h : maximum_resolution < h3_get_resolution cell) :
    get_descendents_down_to_maximum_resolution cell maximum_resolution = [] :=
  descendentsAux_eq_nil maximum_resolution 16 cell h

theorem descendents_below_cell_resolution_witness :
    14 < h3_get_resolution ⟨0, List.replicate 15 0⟩ ∧
      get_descendents_down_to_maximum_resolution ⟨0, List.replicate 15 0⟩ 14 = [] :=
  ⟨by decide, descendents_below_cell_resolution ⟨0, List.replicate 15 0⟩ 14 (by decide)⟩

/-- C5 counterexample: for the concrete resolution 0 cell and minimum
resolution 1, get_ancestors_up_to_minimum_resolution returns the empty list
rather than failing. -/
theorem ancestors_above_cell_resolution_cex :
    get_ancestors_up_to_minimum_resolution ⟨0, []⟩ 1 = [] := by decide

/-- C5 (amended): for every cell and every minimum resolution strictly above
the resolution of the cell, get_ancestors_up_to_minimum_resolution returns the
empty list (the while loop guard fails immediately); no failure is raised. -/
theorem ancestors_above_cell_resolution (cell : H3Cell) (minimum_resolution : Nat)
    (h : h3_get_resolution cell < minimum_resolution) :
    get_ancestors_up_to_minimum_resolution cell minimum_resolution = [] := by
  rw [get_ancestors_up_to_minimum_resolution, if_neg (by omega)]
  exact ancestorsLoopAux_eq_nil minimum_resolution (h3_get_resolution cell) cell (by omega)

theorem ancestors_above_cell_resolution_witness :
    h3_get_resolution ⟨0, []⟩ < 1 ∧ get_ancestors_up_to_minimum_resolution ⟨0, []⟩ 1 = [] :=
  ⟨by decide, ancestors_above_cell_resolution ⟨0, []⟩ 1 (by decide)⟩

/-! Tile reference coordinates. -/

theorem mathTrunc_shift_eq_floor (x : ℚ) (h : 0 ≤ x ∨ (⌊x⌋ : ℚ) < x) :
    mathTrunc (if x < 0 then x - 1 else x) = ⌊x⌋ := by
  by_cases hx : x < 0
  · rw [if_pos hx, mathTrunc, if_pos (by linarith)]
    have hne : (⌊x⌋ : ℚ) < x := by
      rcases h with h | h
      · exact absurd hx (not_lt.mpr h)
      · exact h
    have hceil : ⌈x⌉ = ⌊x⌋ + 1 := by
      rw [Int.ceil_eq_iff]
      constructor
      · push_cast
        linarith
      · push_cast
        linarith [Int.lt_floor_add_one x]
    rw [Int.ceil_sub_one, hceil]
    omega
  · rw [if_neg hx, mathTrunc, if_neg hx]

/-- C6 counterexample: at the negative integer latitude −1, the tile reference
coordinate is (−2, 0), not the floor pair (−1, 0) the claim requires. -/
theorem tile_reference_negative_integer_cex :
    get_tile_reference_coordinate (-1) 0 = (-2, 0) ∧ ⌊(-1 : ℚ)⌋ = -1 ∧ ⌊(0 : ℚ)⌋ = 0 := by
  refine ⟨?_, rfl, rfl⟩
  rw [get_tile_reference_coordinate, if_pos (by norm_num : (-1 : ℚ) < 0),
    if_neg (by norm_num : ¬ (0 : ℚ) < 0), show ((-1 : ℚ) - 1) = -2 by norm_num]
  rfl

/-- C6 (amended): get_tile_reference_coordinate returns the floor pair
(⌊latitude⌋, ⌊longitude⌋) for every coordinate whose negative components are
not exact integers (in particular in all four quadrant examples); a negative
integer component c is mapped to c − 1 instead of its floor c, as the
counterexample shows. -/
theorem tile_reference_eq_floor (latitude longitude : ℚ)
    (hlat : 0 ≤ latitude ∨ (⌊latitude⌋ : ℚ) < latitude)
    (hlng : 0 ≤ longitude ∨ (⌊longitude⌋ : ℚ) < longitude) :
    get_tile_reference_coordinate latitude longitude = (⌊latitude⌋, ⌊longitude⌋) := by
  unfold get_tile_reference_coordinate
  rw [mathTrunc_shift_eq_floor latitude hlat, mathTrunc_shift_eq_floor longitude hlng]

theorem tile_reference_eq_floor_witness :
    (0 ≤ (1/2 : ℚ) ∨ (⌊(1/2 : ℚ)⌋ : ℚ) < 1/2) ∧
      (0 ≤ (-1/2 : ℚ) ∨ (⌊(-1/2 : ℚ)⌋ : ℚ) < -1/2) ∧
      get_tile_reference_coordinate (1/2) (-1/2) = (⌊(1/2 : ℚ)⌋, ⌊(-1/2 : ℚ)⌋) :=
  ⟨by left; norm_num, by right; norm_num,
    tile_reference_eq_floor (1/2) (-1/2) (by left; norm_num) (by right; norm_num)⟩

/-! Cleanup of downloaded tiles. -/

/-- C7 counterexample: with two registered temporary files where removing the
first fails, no deletion is attempted on the second file: the failure prevents
the remaining attempts. -/
theorem cleanup_stops_at_first_failure_cex :
    delete_downloaded_tiles (fun p => !(p == "a")) ["a", "b"] = (["a"], false) ∧
      "b" ∉ (delete_downloaded_tiles (fun p => !(p == "a")) ["a", "b"]).1 := by
  constructor
  · rfl
  · decide

/-- C7 (amended): cleanup is not best-effort per artifact: deletions are
attempted in registration order and stop at the first failing os.remove, whose
exception propagates, so exactly the files before the failure and the failing
file itself receive a deletion attempt and the rest receive none. -/
theorem cleanup_attempts_prefix (remove : String → Bool) (paths : List String)
    (h : (delete_downloaded_tiles remove paths).2 = false) :
    ∃ pre p post, paths = pre ++ p :: post ∧ (∀ q ∈ pre, remove q = true) ∧
      remove p = false ∧ (delete_downloaded_tiles remove paths).1 = pre ++ [p] := by
  induction paths with
  | nil => simp [delete_downloaded_tiles] at h
  | cons a rest ih =>
    by_cases ha : remove a = true
    · have h' : (delete_downloaded_tiles remove rest).2 = false := by
        simpa [delete_downloaded_tiles, ha] using h
      obtain ⟨pre, p, post, h1, h2, h3, h4⟩ := ih h'
      refine ⟨a :: pre, p, post, by simp [h1], ?_, h3, ?_⟩
      · intro q hq
        rcases List.mem_cons.mp hq with rfl | hq
        · exact ha
        · exact h2 q hq
      · simp [delete_downloaded_tiles, ha, h4]
    · refine ⟨[], a, rest, rfl, by simp, by simpa using ha, ?_⟩
      simp [delete_downloaded_tiles, ha]

theorem cleanup_attempts_prefix_witness :
    (delete_downloaded_tiles (fun p => !(p == "x")) ["x", "y"]).2 = false ∧
      ∃ pre p post, ["x", "y"] = pre ++ p :: post ∧
        (∀ q ∈ pre, (fun p => !(p == "x")) q = true) ∧ (fun p => !(p == "x")) p = false ∧
        (delete_downloaded_tiles (fun p => !(p == "x")) ["x", "y"]).1 = pre ++ [p] :=
  ⟨by decide, cleanup_attempts_prefix (fun p => !(p == "x")) ["x", "y"] (by decide)⟩

/-! Storage sink selection. -/

/-- C10: every storage_location value other than the exact string local
selects the graph database sink; unrecognized values raise no error. -/
theorem store_elevations_database_unless_local (storage_location : String)
    (local_storage_path : Option String) (timestamp : String)
    (h : storage_location ≠ "local") :
    store_elevations storage_location local_storage_path timestamp = StorageSink.database := by
  rw [store_elevations, if_neg h]

theorem store_elevations_database_unless_local_witness :
    ("databse" : String) ≠ "local" ∧
      store_elevations "databse" none "2023-01-01" = StorageSink.database :=
  ⟨by decide, store_elevations_database_unless_local "databse" none "2023-01-01" (by decide)⟩

/-! Missing tiles abort the run. -/

/-- C2 counterexample: with an object store lacking every tile, the run on one
resolution 12 cell aborts with the transport error from the failed download;
the coordinate is not cached with a null tile and no default elevation 0.0 is
ever produced. -/
theorem missing_tile_aborts_run_cex :
    (run 12 12 (fun _ => ((0 : ℚ), (0 : ℚ))) (fun _ => none) [⟨0, List.replicate 12 0⟩]).1 =
      .error (.clientError (0, 0)) := by
  rfl

/-- C2 (amended): a fetch failure for a tile the object store does not hold is
not recovered: the tile download stage raises the client error of the first
missing coordinate and produces no tile cache at all (so no coordinate is ever
cached with a null tile, and sampling never substitutes a default 0.0). -/
theorem download_aborts_on_missing_tile (store : TileStore) (rcs : List (ℤ × ℤ))
    (rc : ℤ × ℤ) (h1 : rc ∈ rcs) (h2 : store rc = none) :
    ∃ rc', rc' ∈ rcs ∧ store rc' = none ∧
      (download_and_load_elevation_tiles store rcs).1 =
        .error (.clientError rc') := by
  induction rcs with
  | nil => cases h1
  | cons a rest ih =>
    cases hsa : store a with
    | none =>
      exact ⟨a, List.mem_cons_self a rest, hsa,
        by simp [download_and_load_elevation_tiles, hsa]⟩
    | some t =>
      have h1' : rc ∈ rest := by
        rcases List.mem_cons.mp h1 with rfl | h
        · rw [hsa] at h2
          cases h2
        · exact h
      obtain ⟨rc', hmem, hnone, heq⟩ := ih h1'
      refine ⟨rc', List.mem_cons_of_mem a hmem, hnone, ?_⟩
      rw [download_and_load_elevation_tiles, hsa]
      rcases hd : download_and_load_elevation_tiles store rest with ⟨r, att⟩
      rw [hd] at heq
      cases r with
      | error e =>
        cases heq
        rfl
      | ok cache => cases heq

theorem download_aborts_on_missing_tile_witness :
    ((0, 0) : ℤ × ℤ) ∈ [((0, 0) : ℤ × ℤ)] ∧ (fun _ : ℤ × ℤ => (none : Option Tile)) (0, 0) = none ∧
      ∃ rc', rc' ∈ [((0, 0) : ℤ × ℤ)] ∧ (fun _ : ℤ × ℤ => (none : Option Tile)) rc' = none ∧
        (download_and_load_elevation_tiles (fun _ => none) [(0, 0)]).1 =
          .error (.clientError rc') :=
  ⟨List.mem_cons_self _ _, rfl,
    download_aborts_on_missing_tile (fun _ => none) [(0, 0)] (0, 0)
      (List.mem_cons_self _ _) rfl⟩

/-! Validation failures abort before any network activity. -/

theorem validate_cells_error_of_bad_cell (minimum_resolution maximum_resolution : Nat)
    (cells : List H3Cell) (c : H3Cell) (hc : c ∈ cells)
    (hres : h3_get_resolution c < minimum_resolution ∨
      maximum_resolution < h3_get_resolution c) :
    ∃ c', c' ∈ cells ∧
      (h3_get_resolution c' < minimum_resolution ∨
        maximum_resolution < h3_get_resolution c') ∧
      validate_cells minimum_resolution maximum_resolution cells =
        .error (.outOfRangeResolution c' (h3_get_resolution c')) := by
  induction cells with
  | nil => cases hc
  | cons a rest ih =>
    by_cases ha : h3_get_resolution a < minimum_resolution ∨
        maximum_resolution < h3_get_resolution a
    · exact ⟨a, List.mem_cons_self a rest, ha, by rw [validate_cells, if_pos ha]⟩
    · have hc' : c ∈ rest := by
        rcases List.mem_cons.mp hc with rfl | h
        · exact absurd hres ha
        · exact h
      obtain ⟨c', hmem, hbad, heq⟩ := ih hc'
      exact ⟨c', List.mem_cons_of_mem a hmem, hbad, by rw [validate_cells, if_neg ha, heq]⟩

/-- C8: if any input cell has a resolution outside the inclusive configured
range, the run fails with the validation error naming an offending cell and
its resolution, and the list of attempted tile fetches is empty: no network
activity happens. -/
theorem out_of_range_aborts_before_fetch (minimum_resolution maximum_resolution : Nat)
    (geo : H3Cell → ℚ × ℚ) (store : TileStore) (cells : List H3Cell) (c : H3Cell)
    (hc : c ∈ cells)
    (hres : h3_get_resolution c < minimum_resolution ∨
      maximum_resolution < h3_get_resolution c) :
    ∃ c', c' ∈ cells ∧
      (h3_get_resolution c' < minimum_resolution ∨
        maximum_resolution < h3_get_resolution c') ∧
      run minimum_resolution maximum_resolution geo store cells =
        (.error (.outOfRangeResolution c' (h3_get_resolution c')), []) := by
  obtain ⟨c', hmem, hbad, heq⟩ :=
    validate_cells_error_of_bad_cell minimum_resolution maximum_resolution cells c hc hres
  exact ⟨c', hmem, hbad, by rw [run, heq]⟩

theorem out_of_range_aborts_before_fetch_witness :
    (⟨0, [0, 0, 0]⟩ : H3Cell) ∈ [(⟨0, [0, 0, 0]⟩ : H3Cell)] ∧
      (h3_get_resolution ⟨0, [0, 0, 0]⟩ < 4 ∨ 12 < h3_get_resolution ⟨0, [0, 0, 0]⟩) ∧
      ∃ c', c' ∈ [(⟨0, [0, 0, 0]⟩ : H3Cell)] ∧
        (h3_get_resolution c' < 4 ∨ 12 < h3_get_resolution c') ∧
        run 4 12 (fun _ => ((0 : ℚ), (0 : ℚ))) (fun _ => none) [⟨0, [0, 0, 0]⟩] =
          (.error (.outOfRangeResolution c' (h3_get_resolution c')), []) :=
  ⟨List.mem_cons_self _ _, by decide,
    out_of_range_aborts_before_fetch 4 12 (fun _ => ((0 : ℚ), (0 : ℚ))) (fun _ => none)
      [⟨0, [0, 0, 0]⟩] ⟨0, [0, 0, 0]⟩ (List.mem_cons_self _ _) (by decide)⟩

/-! The minimum resolution equal to maximum resolution configuration. -/

/-- C1: with minimum_resolution = maximum_resolution = 12 and a single
resolution 12 input cell (the default configuration of
scripts/run_app_locally.py), the aggregation stage is still entered: the
pyramid contains the input cell itself, whose resolution 13 children were
never sampled, so the run fails with a KeyError instead of returning the
frontier map unchanged. -/
theorem run_min_eq_max_key_error :
    (run 12 12 (fun _ => ((0 : ℚ), (0 : ℚ))) (fun _ => some fun _ _ => 0)
        [⟨0, List.replicate 12 0⟩]).1 =
      .error (.keyError ⟨0, List.replicate 12 0 ++ [0]⟩) := by
  rfl

/-! Characterisation of ancestor lists, the zip transpose and deduplication,
leading to the pyramid structure theorem. -/

theorem h3_get_resolution_parent (c : H3Cell) :
    h3_get_resolution (h3_to_parent c) = h3_get_resolution c - 1 := by
  simp [h3_get_resolution, h3_to_parent]

theorem h3_get_resolution_iterParent (n : Nat) :
    ∀ c : H3Cell, h3_get_resolution (iterParent n c) = h3_get_resolution c - n := by
  induction n with
  | zero => intro c; simp [iterParent]
  | succ m ih =>
    intro c
    rw [iterParent, ih (h3_to_parent c), h3_get_resolution_parent]
    omega

theorem iterParent_succ_comm (n : Nat) :
    ∀ c : H3Cell, iterParent (n + 1) c = h3_to_parent (iterParent n c) := by
  induction n with
  | zero => intro c; rfl
  | succ m ih =>
    intro c
    rw [show iterParent (m + 1 + 1) c = iterParent (m + 1) (h3_to_parent c) from rfl,
      ih (h3_to_parent c)]
    rfl

theorem ancestorsLoopAux_char (minimum_resolution : Nat) :
    ∀ (fuel : Nat) (c : H3Cell), h3_get_resolution c ≤ fuel →
      ancestorsLoopAux minimum_resolution fuel c =
        (List.range (h3_get_resolution c - minimum_resolution)).map
          fun k => iterParent (k + 1) c := by
  intro fuel
  induction fuel with
  | zero =>
    intro c hc
    have h0 : h3_get_resolution c = 0 := Nat.le_zero.mp hc
    simp [ancestorsLoopAux, h0]
  | succ m ih =>
    intro c hc
    by_cases h : minimum_resolution < h3_get_resolution c
    · rw [ancestorsLoopAux, if_pos h]
      have hple : h3_get_resolution (h3_to_parent c) ≤ m := by
        rw [h3_get_resolution_parent]
        omega
      rw [ih (h3_to_parent c) hple, h3_get_resolution_parent]
      have hn : h3_get_resolution c - minimum_resolution =
          (h3_get_resolution c - 1 - minimum_resolution) + 1 := by omega
      rw [hn, List.range_succ_eq_map, List.map_cons, List.map_map]
      rfl
    · rw [ancestorsLoopAux, if_neg h]
      have h0 : h3_get_resolution c - minimum_resolution = 0 := by omega
      rw [h0]
      rfl

theorem get_ancestors_char (c : H3Cell) (minimum_resolution : Nat)
    (h : minimum_resolution < h3_get_resolution c) :
    get_ancestors_up_to_minimum_resolution c minimum_resolution =
      (List.range (h3_get_resolution c - minimum_resolution)).map
        fun k => iterParent (k + 1) c := by
  rw [get_ancestors_up_to_minimum_resolution, if_neg (by omega)]
  exact ancestorsLoopAux_char minimum_resolution (h3_get_resolution c) c le_rfl

theorem allHeads_map_cons (f : α → β) (g : α → List β) :
    ∀ xs : List α, allHeads (xs.map fun e => f e :: g e) = some (xs.map f) := by
  intro xs
  induction xs with
  | nil => rfl
  | cons a rest ih =>
    rw [List.map_cons, allHeads, ih, List.map_cons]

theorem transposeAux_succ_some (fuel : Nat) (ls : List (List α)) (hs : List α)
    (h : allHeads ls = some hs) :
    transposeAux (fuel + 1) ls = hs :: transposeAux fuel (ls.map List.tail) := by
  rw [transposeAux, h]

theorem transposeAux_map_range (cells : List α) :
    ∀ (m : Nat) (g : Nat → α → β),
      transposeAux m (cells.map fun c => (List.range m).map fun k => g k c) =
        (List.range m).map fun k => cells.map fun c => g k c := by
  intro m
  induction m with
  | zero => intro g; rfl
  | succ n ih =>
    intro g
    have hinner : (fun c => (List.range (n + 1)).map fun k => g k c) =
        fun c => g 0 c :: (List.range n).map fun k => g (k + 1) c := by
      funext c
      rw [List.range_succ_eq_map, List.map_cons, List.map_map]
      rfl
    rw [hinner, transposeAux_succ_some n _ _ (allHeads_map_cons (fun c => g 0 c)
      (fun c => (List.range n).map fun k => g (k + 1) c) cells)]
    have htails : ((cells.map fun c =>
        g 0 c :: (List.range n).map fun k => g (k + 1) c).map List.tail) =
        cells.map fun c => (List.range n).map fun k => g (k + 1) c := by
      rw [List.map_map]
      rfl
    rw [htails, ih fun k => g (k + 1), List.range_succ_eq_map, List.map_cons, List.map_map]
    rfl

theorem pyZipTranspose_map_range (n : Nat) (g : Nat → α → β) (cells : List α)
    (hne : cells ≠ []) :
    pyZipTranspose (cells.map fun c => (List.range n).map fun k => g k c) =
      (List.range n).map fun k => cells.map fun c => g k c := by
  rw [← transposeAux_map_range cells n g]
  cases cells with
  | nil => cases hne rfl
  | cons c0 rest =>
    simp only [List.map_cons, pyZipTranspose]
    congr 1
    simp

theorem mem_pyDedupAux [DecidableEq α] (a : α) :
    ∀ (l seen : List α), a ∈ pyDedupAux seen l ↔ a ∈ l ∧ a ∉ seen := by
  intro l
  induction l with
  | nil => intro seen; simp [pyDedupAux]
  | cons b rest ih =>
    intro seen
    by_cases hb : b ∈ seen
    · rw [pyDedupAux, if_pos hb, ih seen]
      simp only [List.mem_cons]
      constructor
      · intro h
        exact ⟨Or.inr h.1, h.2⟩
      · rintro ⟨h1, h2⟩
        cases h1 with
        | inl h1 =>
          subst h1
          exact absurd hb h2
        | inr h1 => exact ⟨h1, h2⟩
    · rw [pyDedupAux, if_neg hb]
      simp only [List.mem_cons, ih (b :: seen)]
      constructor
      · intro h
        cases h with
        | inl h =>
          subst h
          exact ⟨Or.inl rfl, hb⟩
        | inr h => exact ⟨Or.inr h.1, fun hs => h.2 (Or.inr hs)⟩
      · rintro ⟨h1, h2⟩
        by_cases hab : a = b
        · exact Or.inl hab
        · cases h1 with
          | inl h1 => exact absurd h1 hab
          | inr h1 =>
            refine Or.inr ⟨h1, fun hs => ?_⟩
            cases hs with
            | inl hs => exact hab hs
            | inr hs => exact h2 hs

theorem mem_pyDedup [DecidableEq α] (a : α) (l : List α) : a ∈ pyDedup l ↔ a ∈ l := by
  rw [pyDedup, mem_pyDedupAux]
  simp

theorem toFinset_pyDedup [DecidableEq α] (l : List α) : (pyDedup l).toFinset = l.toFinset := by
  ext x
  simp [List.mem_toFinset, mem_pyDedup]

theorem getD_map_range (n i : Nat) (f : Nat → α) (d : α) (h : i < n) :
    ((List.range n).map f).getD i d = f i := by
  rw [List.getD_eq_getElem?_getD]
  simp [List.getElem?_map, List.getElem?_range, h]

theorem pyramid_char (cells : List H3Cell) (r minimum_resolution : Nat) (hne : cells ≠ [])
    (hres : ∀ c ∈ cells, h3_get_resolution c = r) (hlt : minimum_resolution < r) :
    get_ancestors_up_to_minimum_resolution_as_pyramid cells minimum_resolution =
      (List.range (r - minimum_resolution)).map
        fun k => pyDedup (cells.map fun c => iterParent (k + 1) c) := by
  rw [get_ancestors_up_to_minimum_resolution_as_pyramid]
  have hmap : cells.map (fun c => get_ancestors_up_to_minimum_resolution c minimum_resolution) =
      cells.map fun c =>
        (List.range (r - minimum_resolution)).map fun k => iterParent (k + 1) c := by
    apply List.map_congr_left
    intro c hc
    rw [get_ancestors_char c minimum_resolution (by rw [hres c hc]; exact hlt), hres c hc]
  rw [hmap,
    pyZipTranspose_map_range (r - minimum_resolution) (fun k c => iterParent (k + 1) c) cells hne,
    List.map_map]
  rfl

/-- C9: for every nonempty batch of cells sharing one resolution r strictly
greater than the minimum resolution, the ancestor pyramid satisfies: every
cell in level i has resolution r − i − 1, level 0 equals exactly the set of
parents of the input batch, and level i + 1 equals exactly the set of parents
of level i. -/
theorem pyramid_structure (cells : List H3Cell) (r minimum_resolution : Nat)
    (hne : cells ≠ []) (hres : ∀ c ∈ cells, h3_get_resolution c = r)
    (hlt : minimum_resolution < r) :
    (∀ i,
        i < (get_ancestors_up_to_minimum_resolution_as_pyramid cells minimum_resolution).length →
        ∀ x ∈ (get_ancestors_up_to_minimum_resolution_as_pyramid cells
            minimum_resolution).getD i [],
          h3_get_resolution x = r - (i + 1)) ∧
      ((get_ancestors_up_to_minimum_resolution_as_pyramid cells
          minimum_resolution).getD 0 []).toFinset =
        (cells.map h3_to_parent).toFinset ∧
      ∀ i,
        i + 1 <
          (get_ancestors_up_to_minimum_resolution_as_pyramid cells minimum_resolution).length →
        ((get_ancestors_up_to_minimum_resolution_as_pyramid cells
            minimum_resolution).getD (i + 1) []).toFinset =
          (((get_ancestors_up_to_minimum_resolution_as_pyramid cells
              minimum_resolution).getD i []).map h3_to_parent).toFinset := by
  have hchar := pyramid_char cells r minimum_resolution hne hres hlt
  rw [hchar]
  have hlen : ((List.range (r - minimum_resolution)).map
      fun k => pyDedup (cells.map fun c => iterParent (k + 1) c)).length =
      r - minimum_resolution := by
    simp
  refine ⟨?_, ?_, ?_⟩
  · intro i hi x hx
    rw [hlen] at hi
    rw [getD_map_range (r - minimum_resolution) i _ [] hi] at hx
    obtain ⟨c, hc, rfl⟩ := List.mem_map.mp ((mem_pyDedup x _).mp hx)
    rw [h3_get_resolution_iterParent, hres c hc]
  · have h0 : 0 < r - minimum_resolution := by omega
    rw [getD_map_range (r - minimum_resolution) 0 _ [] h0, toFinset_pyDedup]
    rfl
  · intro i hi
    rw [hlen] at hi
    rw [getD_map_range (r - minimum_resolution) (i + 1) _ [] hi,
      getD_map_range (r - minimum_resolution) i _ [] (by omega), toFinset_pyDedup]
    ext x
    simp only [List.mem_toFinset, List.mem_map, mem_pyDedup]
    constructor
    · rintro ⟨c, hc, rfl⟩
      exact ⟨iterParent (i + 1) c, ⟨c, hc, rfl⟩, (iterParent_succ_comm (i + 1) c).symm⟩
    · rintro ⟨y, ⟨c, hc, rfl⟩, rfl⟩
      exact ⟨c, hc, iterParent_succ_comm (i + 1) c⟩

theorem pyramid_structure_witness :
    (([(⟨0, [0, 0]⟩ : H3Cell)] : List H3Cell) ≠ []) ∧
      (∀ c ∈ ([(⟨0, [0, 0]⟩ : H3Cell)] : List H3Cell), h3_get_resolution c = 2) ∧
      0 < 2 ∧
      ((∀ i,
          i < (get_ancestors_up_to_minimum_resolution_as_pyramid [⟨0, [0, 0]⟩] 0).length →
          ∀ x ∈ (get_ancestors_up_to_minimum_resolution_as_pyramid
              [(⟨0, [0, 0]⟩ : H3Cell)] 0).getD i [],
            h3_get_resolution x = 2 - (i + 1)) ∧
        ((get_ancestors_up_to_minimum_resolution_as_pyramid
            [(⟨0, [0, 0]⟩ : H3Cell)] 0).getD 0 []).toFinset =
          (([(⟨0, [0, 0]⟩ : H3Cell)] : List H3Cell).map h3_to_parent).toFinset ∧
        ∀ i,
          i + 1 <
            (get_ancestors_up_to_minimum_resolution_as_pyramid
              [(⟨0, [0, 0]⟩ : H3Cell)] 0).length →
          ((get_ancestors_up_to_minimum_resolution_as_pyramid
              [(⟨0, [0, 0]⟩ : H3Cell)] 0).getD (i + 1) []).toFinset =
            (((get_ancestors_up_to_minimum_resolution_as_pyramid
                [(⟨0, [0, 0]⟩ : H3Cell)] 0).getD i []).map h3_to_parent).toFinset) :=
  ⟨by simp, by decide, by decide,
    pyramid_structure [⟨0, [0, 0]⟩] 2 0 (by simp) (by decide) (by decide)⟩

/-! Association list facts used for the elevation map. -/

theorem dictLookup_nil [DecidableEq κ] (k : κ) : dictLookup ([] : List (κ × ν)) k = none := rfl

theorem dictLookup_cons [DecidableEq κ] (k k' : κ) (v : ν) (m : List (κ × ν)) :
    dictLookup ((k, v) :: m) k' = if k = k' then some v else dictLookup m k' := by
  by_cases h : k = k'
  · subst h
    rw [if_pos rfl, dictLookup, List.find?_cons_of_pos _ (by simp)]
    rfl
  · rw [if_neg h, dictLookup, List.find?_cons_of_neg _ (by simp [h]), dictLookup]

theorem dictLookup_append_some [DecidableEq κ] (m1 m2 : List (κ × ν)) (k : κ) (v : ν)
    (h : dictLookup m1 k = some v) : dictLookup (m1 ++ m2) k = some v := by
  induction m1 with
  | nil => cases h
  | cons e rest ih =>
    rcases e with ⟨k1, v1⟩
    rw [List.cons_append, dictLookup_cons]
    rw [dictLookup_cons] at h
    by_cases hk : k1 = k
    · rwa [if_pos hk] at h ⊢
    · rw [if_neg hk] at h ⊢
      exact ih h

theorem dictLookup_append_none [DecidableEq κ] (m1 m2 : List (κ × ν)) (k : κ)
    (h : dictLookup m1 k = none) : dictLookup (m1 ++ m2) k = dictLookup m2 k := by
  induction m1 with
  | nil => rfl
  | cons e rest ih =>
    rcases e with ⟨k1, v1⟩
    rw [List.cons_append, dictLookup_cons]
    rw [dictLookup_cons] at h
    by_cases hk : k1 = k
    · rw [if_pos hk] at h
      cases h
    · rw [if_neg hk] at h ⊢
      exact ih h

theorem dictLookup_map_self [DecidableEq κ] (g : κ → ν) (k : κ) :
    ∀ xs : List κ, dictLookup (xs.map fun c => (c, g c)) k =
      if k ∈ xs then some (g k) else none := by
  intro xs
  induction xs with
  | nil => simp [dictLookup_nil]
  | cons c rest ih =>
    rw [List.map_cons, dictLookup_cons, ih]
    by_cases hck : c = k
    · subst hck
      rw [if_pos rfl, if_pos (List.mem_cons_self c rest)]
    · rw [if_neg hck]
      by_cases hk : k ∈ rest
      · rw [if_pos hk, if_pos (List.mem_cons_of_mem c hk)]
      · rw [if_neg hk, if_neg (by
          rw [List.mem_cons]
          push_neg
          exact ⟨fun h => hck h.symm, hk⟩)]

theorem dictContains_eq_isSome [DecidableEq κ] (k : κ) :
    ∀ m : List (κ × ν), dictContains m k = (dictLookup m k).isSome := by
  intro m
  induction m with
  | nil => rfl
  | cons e rest ih =>
    rcases e with ⟨k1, v1⟩
    rw [dictContains, List.any_cons, dictLookup_cons]
    by_cases hk : k1 = k
    · subst hk
      simp
    · have hd : (decide ((k1, v1).1 = k)) = false := by simp [hk]
      rw [hd, Bool.false_or, if_neg hk, ← ih]
      rfl

theorem dictInsert_append_of_lookup_none [DecidableEq κ] (m : List (κ × ν)) (k : κ) (v : ν)
    (h : dictLookup m k = none) : dictInsert m k v = m ++ [(k, v)] := by
  rw [dictInsert, dictContains_eq_isSome, h]
  rfl

theorem lookupAll_ok (m : List (H3Cell × ℚ)) :
    ∀ l : List H3Cell, (∀ c ∈ l, (dictLookup m c).isSome) →
      lookupAll m l = .ok (l.map fun c => (dictLookup m c).getD 0) := by
  intro l
  induction l with
  | nil => intro _; rfl
  | cons c rest ih =>
    intro h
    obtain ⟨v, hv⟩ := Option.isSome_iff_exists.mp (h c (List.mem_cons_self c rest))
    rw [lookupAll, hv, ih fun x hx => h x (List.mem_cons_of_mem c hx), List.map_cons, hv]
    rfl

/-! Further facts about first-occurrence deduplication. -/

theorem pyDedupAux_eq_self_of_nodup [DecidableEq α] :
    ∀ (l seen : List α), l.Nodup → (∀ x ∈ l, x ∉ seen) → pyDedupAux seen l = l := by
  intro l
  induction l with
  | nil => intro seen _ _; rfl
  | cons a rest ih =>
    intro seen hnd hsub
    rw [pyDedupAux, if_neg (hsub a (List.mem_cons_self a rest))]
    congr 1
    refine ih (a :: seen) (List.Nodup.of_cons hnd) fun x hx hmem => ?_
    rcases List.mem_cons.mp hmem with rfl | hmem
    · exact (List.nodup_cons.mp hnd).1 hx
    · exact hsub x (List.mem_cons_of_mem a hx) hmem

theorem pyDedup_eq_self_of_nodup [DecidableEq α] (l : List α) (h : l.Nodup) : pyDedup l = l :=
  pyDedupAux_eq_self_of_nodup l [] h (by simp)

theorem pyDedupAux_eq_nil_of_all_mem [DecidableEq α] :
    ∀ (l seen : List α), (∀ x ∈ l, x ∈ seen) → pyDedupAux seen l = [] := by
  intro l
  induction l with
  | nil => intro seen _; rfl
  | cons a rest ih =>
    intro seen h
    rw [pyDedupAux, if_pos (h a (List.mem_cons_self a rest))]
    exact ih seen fun x hx => h x (List.mem_cons_of_mem a hx)

theorem pyDedup_all_eq [DecidableEq α] (a : α) :
    ∀ l : List α, l ≠ [] → (∀ x ∈ l, x = a) → pyDedup l = [a] := by
  intro l
  cases l with
  | nil => intro h _; cases h rfl
  | cons x rest =>
    intro _ h
    have hx : x = a := h x (List.mem_cons_self x rest)
    subst hx
    rw [pyDedup, pyDedupAux, if_neg (List.not_mem_nil x)]
    rw [pyDedupAux_eq_nil_of_all_mem rest [x] fun y hy => by
      rw [h y (List.mem_cons_of_mem x hy)]
      exact List.mem_cons_self x []]

theorem pyDedupAux_replicate_append [DecidableEq α] (a : α) (l : List α) :
    ∀ (n : Nat) (seen : List α), a ∈ seen →
      pyDedupAux seen (List.replicate n a ++ l) = pyDedupAux seen l := by
  intro n
  induction n with
  | zero => intro seen _; rfl
  | succ k ih =>
    intro seen hmem
    rw [List.replicate_succ, List.cons_append, pyDedupAux, if_pos hmem]
    exact ih seen hmem

theorem pyDedupAux_flatMap_replicate [DecidableEq α] (f : β → α) (n : Nat) :
    ∀ (xs : List β) (seen : List α), (xs.map f).Nodup → (∀ x ∈ xs, f x ∉ seen) →
      pyDedupAux seen (xs.flatMap fun x => List.replicate (n + 1) (f x)) = xs.map f := by
  intro xs
  induction xs with
  | nil => intro seen _ _; rfl
  | cons x rest ih =>
    intro seen hnd hseen
    rw [List.map_cons] at hnd
    have hhead := (List.nodup_cons.mp hnd).1
    have hnd' := (List.nodup_cons.mp hnd).2
    rw [List.flatMap_cons, List.replicate_succ, List.cons_append, pyDedupAux,
      if_neg (hseen x (List.mem_cons_self x rest)),
      pyDedupAux_replicate_append (f x) _ n (f x :: seen) (List.mem_cons_self _ _),
      ih (f x :: seen) hnd' fun y hy hmem => ?_, List.map_cons]
    rcases List.mem_cons.mp hmem with heq | hmem
    · exact hhead (heq ▸ List.mem_map_of_mem f hy)
    · exact hseen y (List.mem_cons_of_mem x hy) hmem

theorem pyDedup_flatMap_replicate [DecidableEq α] (f : β → α) (n : Nat) (hn : 0 < n)
    (xs : List β) (hnd : (xs.map f).Nodup) :
    pyDedup (xs.flatMap fun x => List.replicate n (f x)) = xs.map f := by
  cases n with
  | zero => omega
  | succ k => exact pyDedupAux_flatMap_replicate f k xs [] hnd (by simp)

/-! Structure of children, parents and two-level descendants around one
resolution 10 cell, used by the end-to-end scenario. -/

theorem h3_to_children_char (b : Nat) (t : List (Fin 7)) (h : t.length < 15) :
    h3_to_children ⟨b, t⟩ = (List.finRange 7).map fun d => ⟨b, t ++ [d]⟩ := by
  rw [h3_to_children, if_neg (show ¬ 15 ≤ t.length by omega)]

theorem h3_to_parent_append (b : Nat) (u : List (Fin 7)) (d : Fin 7) :
    h3_to_parent ⟨b, u ++ [d]⟩ = ⟨b, u⟩ := by
  rw [h3_to_parent]
  simp

theorem flatMap_singleton_map (f : α → β) :
    ∀ l : List α, (l.flatMap fun x => [f x]) = l.map f := by
  intro l
  induction l with
  | nil => rfl
  | cons a rest ih =>
    rw [List.flatMap_cons, ih]
    rfl

theorem descendents_two_levels (b : Nat) (t : List (Fin 7)) (h : t.length = 10) :
    get_descendents_down_to_maximum_resolution ⟨b, t⟩ 12 =
      (List.finRange 7).flatMap fun d => (List.finRange 7).map fun e => ⟨b, t ++ [d, e]⟩ := by
  rw [get_descendents_down_to_maximum_resolution]
  rw [show descendentsAux 12 16 (⟨b, t⟩ : H3Cell) =
      if h3_get_resolution ⟨b, t⟩ = 12 then [(⟨b, t⟩ : H3Cell)]
      else (h3_to_children ⟨b, t⟩).flatMap (descendentsAux 12 15) from rfl]
  rw [if_neg (show ¬ h3_get_resolution (⟨b, t⟩ : H3Cell) = 12 by
      simp [h3_get_resolution, h]),
    h3_to_children_char b t (by omega), List.flatMap_map]
  refine List.flatMap_congr fun d _ => ?_
  rw [show descendentsAux 12 15 (⟨b, t ++ [d]⟩ : H3Cell) =
      if h3_get_resolution ⟨b, t ++ [d]⟩ = 12 then [(⟨b, t ++ [d]⟩ : H3Cell)]
      else (h3_to_children ⟨b, t ++ [d]⟩).flatMap (descendentsAux 12 14) from rfl]
  rw [if_neg (show ¬ h3_get_resolution (⟨b, t ++ [d]⟩ : H3Cell) = 12 by
      simp [h3_get_resolution, h]),
    h3_to_children_char b (t ++ [d]) (by simp [h]), List.flatMap_map]
  have hall : ∀ e ∈ List.finRange 7,
      descendentsAux 12 14 ⟨b, (t ++ [d]) ++ [e]⟩ = [(⟨b, t ++ [d, e]⟩ : H3Cell)] := by
    intro e _
    rw [show descendentsAux 12 14 (⟨b, (t ++ [d]) ++ [e]⟩ : H3Cell) =
        if h3_get_resolution ⟨b, (t ++ [d]) ++ [e]⟩ = 12 then [(⟨b, (t ++ [d]) ++ [e]⟩ : H3Cell)]
        else (h3_to_children ⟨b, (t ++ [d]) ++ [e]⟩).flatMap (descendentsAux 12 13) from rfl]
    rw [if_pos (by simp [h3_get_resolution, h]), List.append_assoc]
    rfl
  rw [List.flatMap_congr hall, flatMap_singleton_map]

theorem cell_digits_eq {b : Nat} {u v : List (Fin 7)}
    (h : (⟨b, u⟩ : H3Cell) = ⟨b, v⟩) : u = v := by
  simpa using congrArg H3Cell.digits h

theorem children_list_nodup (b : Nat) (t : List (Fin 7)) :
    ((List.finRange 7).map fun d => (⟨b, t ++ [d]⟩ : H3Cell)).Nodup := by
  refine List.Nodup.map ?_ (List.nodup_finRange 7)
  intro d d' hdd
  have h2 := List.append_cancel_left (cell_digits_eq hdd)
  simpa using h2

theorem frontier_nodup (b : Nat) (t : List (Fin 7)) :
    ((List.finRange 7).flatMap fun d => (List.finRange 7).map fun e =>
      (⟨b, t ++ [d, e]⟩ : H3Cell)).Nodup := by
  rw [List.nodup_flatMap]
  constructor
  · intro d _
    refine List.Nodup.map ?_ (List.nodup_finRange 7)
    intro e e' hee
    have h2 := List.append_cancel_left (cell_digits_eq hee)
    simpa using h2
  · refine (List.nodup_finRange 7).imp ?_
    intro d d' hne x hx hx'
    obtain ⟨e, _, rfl⟩ := List.mem_map.mp hx
    obtain ⟨e', _, heq⟩ := List.mem_map.mp hx'
    have h2 := List.append_cancel_left (cell_digits_eq heq)
    simp only [List.cons.injEq, and_true] at h2
    exact hne h2.1.symm

theorem length_flatMap_eq (f : α → List β) :
    ∀ l : List α, (l.flatMap f).length = (l.map fun a => (f a).length).sum := by
  intro l
  induction l with
  | nil => rfl
  | cons a rest ih => simp [List.flatMap_cons, ih]

theorem frontier_length (b : Nat) (t : List (Fin 7)) :
    ((List.finRange 7).flatMap fun d => (List.finRange 7).map fun e =>
      (⟨b, t ++ [d, e]⟩ : H3Cell)).length = 49 := by
  rw [length_flatMap_eq]
  simp

/-! Computation of the pipeline stages on well-behaved inputs. -/

theorem aggregateLevel_fresh :
    ∀ (level : List H3Cell) (m : List (H3Cell × ℚ)),
      (∀ a ∈ level, dictLookup m a = none) → level.Nodup →
      (∀ a ∈ level, ∀ ch ∈ h3_to_children a, (dictLookup m ch).isSome) →
      aggregateLevel m level =
        .ok (m ++ level.map fun a =>
          (a, npMean ((h3_to_children a).map fun ch => (dictLookup m ch).getD 0))) := by
  intro level
  induction level with
  | nil => intro m _ _ _; simp [aggregateLevel]
  | cons a rest ih =>
    intro m hfresh hnd hch
    have hla := lookupAll_ok m (h3_to_children a) (hch a (List.mem_cons_self a rest))
    simp only [aggregateLevel, hla]
    rw [dictInsert_append_of_lookup_none m a _ (hfresh a (List.mem_cons_self a rest))]
    have hf2 : ∀ x ∈ rest, dictLookup (m ++ [(a, npMean ((h3_to_children a).map fun ch =>
        (dictLookup m ch).getD 0))]) x = none := by
      intro x hx
      rw [dictLookup_append_none m _ x (hfresh x (List.mem_cons_of_mem a hx)), dictLookup_cons,
        if_neg (fun hax => (List.nodup_cons.mp hnd).1 (by rw [hax]; exact hx)), dictLookup_nil]
    have hc2 : ∀ x ∈ rest, ∀ ch ∈ h3_to_children x,
        (dictLookup (m ++ [(a, npMean ((h3_to_children a).map fun ch =>
          (dictLookup m ch).getD 0))]) ch).isSome := by
      intro x hx ch hchm
      obtain ⟨v, hv⟩ :=
        Option.isSome_iff_exists.mp (hch x (List.mem_cons_of_mem a hx) ch hchm)
      rw [dictLookup_append_some m _ ch v hv]
      rfl
    rw [ih _ hf2 (List.Nodup.of_cons hnd) hc2]
    have hmaps : rest.map (fun x => (x, npMean ((h3_to_children x).map fun ch =>
        (dictLookup (m ++ [(a, npMean ((h3_to_children a).map fun ch =>
          (dictLookup m ch).getD 0))]) ch).getD 0))) =
        rest.map fun x => (x, npMean ((h3_to_children x).map fun ch =>
          (dictLookup m ch).getD 0)) := by
      refine List.map_congr_left fun x hx => ?_
      have hinner : ((h3_to_children x).map fun ch =>
          (dictLookup (m ++ [(a, npMean ((h3_to_children a).map fun ch =>
            (dictLookup m ch).getD 0))]) ch).getD 0) =
          (h3_to_children x).map fun ch => (dictLookup m ch).getD 0 := by
        refine List.map_congr_left fun ch hchm => ?_
        obtain ⟨v, hv⟩ :=
          Option.isSome_iff_exists.mp (hch x (List.mem_cons_of_mem a hx) ch hchm)
        rw [dictLookup_append_some m _ ch v hv, hv]
      rw [hinner]
    rw [hmaps, List.append_assoc, List.singleton_append, List.map_cons]

theorem download_tiles_total (store : TileStore) (htotal : ∀ rc, (store rc).isSome) :
    ∀ rcs : List (ℤ × ℤ), ∃ cache,
      download_and_load_elevation_tiles store rcs = (.ok cache, rcs) ∧
        ∀ rc ∈ rcs, dictLookup cache rc = store rc := by
  intro rcs
  induction rcs with
  | nil => exact ⟨[], rfl, fun rc h => absurd h (List.not_mem_nil rc)⟩
  | cons rc rest ih =>
    obtain ⟨tl, htl⟩ := Option.isSome_iff_exists.mp (htotal rc)
    obtain ⟨cache, hc, hlook⟩ := ih
    refine ⟨(rc, tl) :: cache, ?_, ?_⟩
    · simp only [download_and_load_elevation_tiles, htl, hc]
    · intro rc' hrc'
      rw [dictLookup_cons]
      by_cases hrr : rc = rc'
      · subst hrr
        rw [if_pos rfl, htl]
      · rw [if_neg hrr]
        refine hlook rc' ?_
        rcases List.mem_cons.mp hrc' with h | h
        · exact absurd h.symm hrr
        · exact h

theorem get_elevations_ok (tiles : List ((ℤ × ℤ) × Tile)) (sample : H3Cell → ℚ) :
    ∀ l : List (H3Cell × ℚ × ℚ),
      (∀ p ∈ l, get_elevation tiles p.2.1 p.2.2 = .ok (sample p.1)) →
      get_elevations tiles l = .ok (l.map fun p => (p.1, sample p.1)) := by
  intro l
  induction l with
  | nil => intro _; rfl
  | cons p rest ih =>
    intro h
    simp only [get_elevations, h p (List.mem_cons_self p rest),
      ih fun q hq => h q (List.mem_cons_of_mem p hq), List.map_cons]

section ScenarioResolution11

attribute [local irreducible] mathTrunc get_tile_reference_coordinate

set_option maxHeartbeats 2000000 in
/-- C3: for one input cell at resolution 11 run with minimum resolution 10 and
maximum resolution 12 (against an object store holding every tile), the run
succeeds and the key set of the resulting elevation map is exactly the union
of the resolution 10 parent, the 7 resolution 11 children of that parent, and
the 49 resolution 12 descendants of that parent; and the value stored for the
parent is the arithmetic mean of the values stored for its 7 children. -/
theorem run_resolution_11_scenario (b : Nat) (t11 : List (Fin 7)) (geo : H3Cell → ℚ × ℚ)
    (store : TileStore) (hlen : t11.length = 11) (hstore : ∀ rc, (store rc).isSome) :
    ∃ m, (run 10 12 geo store [⟨b, t11⟩]).1 = .ok m ∧
      (m.map Prod.fst).toFinset =
        insert (h3_to_parent ⟨b, t11⟩)
          ((h3_to_children (h3_to_parent ⟨b, t11⟩)).toFinset ∪
            (get_descendents_down_to_maximum_resolution (h3_to_parent ⟨b, t11⟩) 12).toFinset) ∧
      (h3_to_children (h3_to_parent ⟨b, t11⟩)).toFinset.card = 7 ∧
      (get_descendents_down_to_maximum_resolution (h3_to_parent ⟨b, t11⟩) 12).toFinset.card =
        49 ∧
      (∀ ch ∈ h3_to_children (h3_to_parent ⟨b, t11⟩), (dictLookup m ch).isSome) ∧
      dictLookup m (h3_to_parent ⟨b, t11⟩) =
        some (npMean ((h3_to_children (h3_to_parent ⟨b, t11⟩)).map
          fun ch => (dictLookup m ch).getD 0)) := by
  have hparent : h3_to_parent ⟨b, t11⟩ = (⟨b, t11.dropLast⟩ : H3Cell) := rfl
  rw [hparent]
  obtain ⟨t, ht, hgt⟩ : ∃ t, t.length = 10 ∧ t11.dropLast = t :=
    ⟨t11.dropLast, by rw [List.length_dropLast, hlen], rfl⟩
  rw [hgt]
  rw [descendents_two_levels b t ht, h3_to_children_char b t (by omega)]
  set E := (List.finRange 7).flatMap fun d => (List.finRange 7).map fun e =>
    (⟨b, t ++ [d, e]⟩ : H3Cell) with hEdef
  set C := (List.finRange 7).map fun d => (⟨b, t ++ [d]⟩ : H3Cell) with hCdef
  have hEnodup : E.Nodup := frontier_nodup b t
  have hCnodup : C.Nodup := children_list_nodup b t
  have hEmem : ∀ x ∈ E, ∃ d e : Fin 7, x = ⟨b, t ++ [d, e]⟩ := by
    intro x hx
    rw [hEdef] at hx
    obtain ⟨d, _, hx2⟩ := List.mem_flatMap.mp hx
    obtain ⟨e, _, rfl⟩ := List.mem_map.mp hx2
    exact ⟨d, e, rfl⟩
  have hCmemE : ∀ d e : Fin 7, (⟨b, t ++ [d, e]⟩ : H3Cell) ∈ E := by
    intro d e
    rw [hEdef]
    exact List.mem_flatMap.mpr
      ⟨d, List.mem_finRange d, List.mem_map.mpr ⟨e, List.mem_finRange e, rfl⟩⟩
  have hEne : E ≠ [] := List.ne_nil_of_mem (hCmemE 0 0)
  have hEres : ∀ x ∈ E, h3_get_resolution x = 12 := by
    intro x hx
    obtain ⟨d, e, rfl⟩ := hEmem x hx
    simp [h3_get_resolution, ht]
  have hCmem : ∀ x ∈ C, ∃ d : Fin 7, x = ⟨b, t ++ [d]⟩ := by
    intro x hx
    rw [hCdef] at hx
    obtain ⟨d, _, rfl⟩ := List.mem_map.mp hx
    exact ⟨d, rfl⟩
  have hmemC : ∀ d : Fin 7, (⟨b, t ++ [d]⟩ : H3Cell) ∈ C := by
    intro d
    rw [hCdef]
    exact List.mem_map.mpr ⟨d, List.mem_finRange d, rfl⟩
  have hnotEC : ∀ x ∈ C, x ∉ E := by
    intro x hx hmem
    obtain ⟨d, rfl⟩ := hCmem x hx
    obtain ⟨d', e', heq⟩ := hEmem _ hmem
    have hlen2 := congrArg List.length (cell_digits_eq heq)
    simp [ht] at hlen2
  have hpE : (⟨b, t⟩ : H3Cell) ∉ E := by
    intro hmem
    obtain ⟨d', e', heq⟩ := hEmem _ hmem
    have hlen2 := congrArg List.length (cell_digits_eq heq)
    simp [ht] at hlen2
  have hpC : (⟨b, t⟩ : H3Cell) ∉ C := by
    intro hmem
    obtain ⟨d, heq⟩ := hCmem _ hmem
    have hlen2 := congrArg List.length (cell_digits_eq heq)
    simp [ht] at hlen2
  have hchildp : h3_to_children ⟨b, t⟩ = C := by
    rw [h3_to_children_char b t (by omega)]
  have hchildC : ∀ d : Fin 7, h3_to_children ⟨b, t ++ [d]⟩ =
      (List.finRange 7).map fun e => (⟨b, (t ++ [d]) ++ [e]⟩ : H3Cell) :=
    fun d => h3_to_children_char b (t ++ [d]) (by simp [ht])
  have hcell2 : ∀ d e : Fin 7, (⟨b, (t ++ [d]) ++ [e]⟩ : H3Cell) = ⟨b, t ++ [d, e]⟩ := by
    intro d e
    rw [List.append_assoc]
    rfl
  -- the sampled elevation of each frontier cell
  set sample : H3Cell → ℚ := fun c =>
    ((store (get_tile_reference_coordinate (geo c).1 (geo c).2)).getD fun _ _ => 0)
      (geo c).1 (geo c).2 with hsampledef
  -- stage equations
  have hval : validate_cells 10 12 [⟨b, t11⟩] = .ok () := by
    rw [validate_cells, if_neg (by simp [h3_get_resolution, hlen])]
    rfl
  have hanc : get_ancestors_up_to_minimum_resolution ⟨b, t11⟩ 10 = [⟨b, t⟩] := by
    rw [get_ancestors_up_to_minimum_resolution,
      if_neg (by simp [h3_get_resolution, hlen]),
      ancestorsLoopAux_char 10 (h3_get_resolution ⟨b, t11⟩) ⟨b, t11⟩ le_rfl]
    have h1 : h3_get_resolution ⟨b, t11⟩ - 10 = 1 := by simp [h3_get_resolution, hlen]
    rw [h1, show List.range 1 = [0] from rfl, List.map_cons, List.map_nil,
      show iterParent (0 + 1) (⟨b, t11⟩ : H3Cell) = h3_to_parent ⟨b, t11⟩ from rfl, hparent,
      hgt]
  have hlast : lastAncestors 10 [⟨b, t11⟩] = .ok [⟨b, t⟩] := by
    simp only [lastAncestors, hanc]
    rfl
  have hminanc : minimum_resolution_ancestors 10 [⟨b, t11⟩] = .ok [⟨b, t⟩] := by
    rw [minimum_resolution_ancestors, hlast]
    rfl
  have hfrontE : pyDedup (([(⟨b, t⟩ : H3Cell)] : List H3Cell).flatMap fun c =>
      get_descendents_down_to_maximum_resolution c 12) = E := by
    rw [List.flatMap_cons, List.flatMap_nil, List.append_nil, descendents_two_levels b t ht]
    exact pyDedup_eq_self_of_nodup _ hEnodup
  obtain ⟨cache, hdl, hlook⟩ := download_tiles_total store hstore
    (pyDedup ((E.map fun c => (c, geo c)).map fun p =>
      get_tile_reference_coordinate p.2.1 p.2.2))
  have hsampOK : ∀ q ∈ E.map fun c => (c, geo c),
      get_elevation cache q.2.1 q.2.2 = .ok (sample q.1) := by
    intro q hq
    obtain ⟨c, hc, rfl⟩ := List.mem_map.mp hq
    have hrc : get_tile_reference_coordinate (geo c).1 (geo c).2 ∈
        pyDedup ((E.map fun c => (c, geo c)).map fun p =>
          get_tile_reference_coordinate p.2.1 p.2.2) := by
      rw [mem_pyDedup]
      exact List.mem_map_of_mem
        (fun p : H3Cell × ℚ × ℚ => get_tile_reference_coordinate p.2.1 p.2.2)
        (List.mem_map_of_mem (fun c => (c, geo c)) hc)
    obtain ⟨tl, htl⟩ := Option.isSome_iff_exists.mp
      (hstore (get_tile_reference_coordinate (geo c).1 (geo c).2))
    simp only [get_elevation, hlook _ hrc, htl, hsampledef, Option.getD_some]
  have hm0 : get_elevations cache (E.map fun c => (c, geo c)) =
      .ok (E.map fun c => (c, sample c)) := by
    rw [get_elevations_ok cache sample _ hsampOK, List.map_map]
    rfl
  -- aggregation
  have hkeys0 : ((E.map fun c => (c, sample c)).map fun x => x.1) = E := by
    rw [List.map_map]
    exact List.map_id E
  have hpyr : get_ancestors_up_to_minimum_resolution_as_pyramid E 10 = [C, [⟨b, t⟩]] := by
    rw [pyramid_char E 12 10 hEne hEres (by omega),
      show (12 : Nat) - 10 = 2 from rfl, show List.range 2 = [0, 1] from rfl,
      List.map_cons, List.map_cons, List.map_nil]
    congr 1
    · have hmapE : (E.map fun c => iterParent (0 + 1) c) =
          (List.finRange 7).flatMap fun d => List.replicate 7 (⟨b, t ++ [d]⟩ : H3Cell) := by
        rw [hEdef, List.map_flatMap]
        refine List.flatMap_congr fun d _ => ?_
        rw [List.map_map]
        have hcomp : ((fun c => iterParent (0 + 1) c) ∘ fun e =>
            (⟨b, t ++ [d, e]⟩ : H3Cell)) = fun _ => (⟨b, t ++ [d]⟩ : H3Cell) := by
          funext e
          show h3_to_parent ⟨b, t ++ [d, e]⟩ = ⟨b, t ++ [d]⟩
          rw [← hcell2 d e, h3_to_parent_append]
        rw [hcomp, List.map_const', List.length_finRange]
      rw [hmapE, pyDedup_flatMap_replicate (fun d => (⟨b, t ++ [d]⟩ : H3Cell)) 7 (by omega)
        (List.finRange 7) (children_list_nodup b t), hCdef]
    · congr 1
      refine pyDedup_all_eq _ _ (List.ne_nil_of_mem
        (List.mem_map_of_mem (fun c => iterParent (1 + 1) c) (hCmemE 0 0))) ?_
      intro x hx
      obtain ⟨c, hc, rfl⟩ := List.mem_map.mp hx
      obtain ⟨d, e, rfl⟩ := hEmem c hc
      show h3_to_parent (h3_to_parent ⟨b, t ++ [d, e]⟩) = ⟨b, t⟩
      rw [← hcell2 d e, h3_to_parent_append, h3_to_parent_append]
  set g1 : H3Cell → ℚ := fun a =>
    npMean ((h3_to_children a).map fun ch =>
      (dictLookup (E.map fun c => (c, sample c)) ch).getD 0) with hg1def
  have hlookup_m0_C : ∀ ch ∈ C, dictLookup (E.map fun c => (c, sample c)) ch = none := by
    intro ch hch
    rw [dictLookup_map_self, if_neg (hnotEC ch hch)]
  have hlev0 : aggregateLevel (E.map fun c => (c, sample c)) C =
      .ok ((E.map fun c => (c, sample c)) ++ C.map fun a => (a, g1 a)) := by
    have hc : ∀ a ∈ C, ∀ ch ∈ h3_to_children a,
        (dictLookup (E.map fun c => (c, sample c)) ch).isSome := by
      intro a ha ch hch
      obtain ⟨d, rfl⟩ := hCmem a ha
      rw [hchildC d] at hch
      obtain ⟨e, _, rfl⟩ := List.mem_map.mp hch
      rw [hcell2 d e, dictLookup_map_self, if_pos (hCmemE d e)]
      rfl
    rw [aggregateLevel_fresh C _ hlookup_m0_C hCnodup hc, hg1def]
  set m1 := (E.map fun c => (c, sample c)) ++ C.map fun a => (a, g1 a) with hm1def
  have hlookup_m1_C : ∀ ch ∈ C, dictLookup m1 ch = some (g1 ch) := by
    intro ch hch
    rw [hm1def, dictLookup_append_none _ _ _ (hlookup_m0_C ch hch), dictLookup_map_self,
      if_pos hch]
  have hlookup_m1_p : dictLookup m1 ⟨b, t⟩ = none := by
    rw [hm1def, dictLookup_append_none _ _ _ (by rw [dictLookup_map_self, if_neg hpE]),
      dictLookup_map_self, if_neg hpC]
  set g2 : ℚ := npMean (C.map fun ch => (dictLookup m1 ch).getD 0) with hg2def
  have hlev1 : aggregateLevel m1 [⟨b, t⟩] = .ok (m1 ++ [(⟨b, t⟩, g2)]) := by
    have hf : ∀ a ∈ [(⟨b, t⟩ : H3Cell)], dictLookup m1 a = none := by
      intro a ha
      rw [List.mem_singleton] at ha
      subst ha
      exact hlookup_m1_p
    have hc : ∀ a ∈ [(⟨b, t⟩ : H3Cell)], ∀ ch ∈ h3_to_children a,
        (dictLookup m1 ch).isSome := by
      intro a ha ch hch
      rw [List.mem_singleton] at ha
      subst ha
      rw [hchildp] at hch
      rw [hlookup_m1_C ch hch]
      rfl
    rw [aggregateLevel_fresh [⟨b, t⟩] m1 hf (by simp) hc, List.map_cons, List.map_nil,
      hchildp, hg2def]
  have hagg : add_average_elevations_for_ancestors_up_to_minimum_resolution 10
      (E.map fun c => (c, sample c)) = .ok (m1 ++ [(⟨b, t⟩, g2)]) := by
    rw [add_average_elevations_for_ancestors_up_to_minimum_resolution, hkeys0, hpyr]
    simp only [aggregateLevels, hlev0, hlev1]
  refine ⟨m1 ++ [((⟨b, t⟩ : H3Cell), g2)], ?_, ?_, ?_, ?_, ?_, ?_⟩
  · -- the run succeeds with this map
    simp only [run, hval, hminanc, hfrontE, hdl, hm0, hagg]
  · -- the key set
    have hkeysall : (((m1 ++ [((⟨b, t⟩ : H3Cell), g2)]).map Prod.fst)) =
        (E ++ C) ++ [(⟨b, t⟩ : H3Cell)] := by
      rw [hm1def, List.map_append, List.map_append, List.map_map, List.map_map]
      simp [Function.comp_def]
    rw [hkeysall]
    ext x
    simp only [List.toFinset_append, Finset.mem_union, List.mem_toFinset, Finset.mem_insert,
      List.mem_singleton]
    tauto
  · rw [List.toFinset_card_of_nodup hCnodup, hCdef]
    simp
  · rw [List.toFinset_card_of_nodup hEnodup, hEdef]
    exact frontier_length b t
  · intro ch hch
    rw [dictLookup_append_some m1 _ ch (g1 ch) (hlookup_m1_C ch hch)]
    rfl
  · rw [dictLookup_append_none m1 _ _ hlookup_m1_p, dictLookup_cons, if_pos rfl]
    congr 1
    rw [hg2def]
    congr 1
    refine List.map_congr_left fun ch hch => ?_
    rw [dictLookup_append_some m1 _ ch (g1 ch) (hlookup_m1_C ch hch),
      hlookup_m1_C ch hch]

theorem run_resolution_11_scenario_witness :
    (List.replicate 11 (0 : Fin 7)).length = 11 ∧
      (∀ rc : ℤ × ℤ, ((fun _ : ℤ × ℤ => (some fun _ _ => (1 : ℚ) : Option Tile)) rc).isSome) ∧
      ∃ m, (run 10 12 (fun _ => ((0 : ℚ), (0 : ℚ)))
          (fun _ : ℤ × ℤ => (some fun _ _ => (1 : ℚ) : Option Tile))
          [⟨0, List.replicate 11 0⟩]).1 = .ok m ∧
        (m.map Prod.fst).toFinset =
          insert (h3_to_parent ⟨0, List.replicate 11 0⟩)
            ((h3_to_children (h3_to_parent ⟨0, List.replicate 11 0⟩)).toFinset ∪
              (get_descendents_down_to_maximum_resolution
                (h3_to_parent ⟨0, List.replicate 11 0⟩) 12).toFinset) ∧
        (h3_to_children (h3_to_parent ⟨0, List.replicate 11 0⟩)).toFinset.card = 7 ∧
        (get_descendents_down_to_maximum_resolution
          (h3_to_parent ⟨0, List.replicate 11 0⟩) 12).toFinset.card = 49 ∧
        (∀ ch ∈ h3_to_children (h3_to_parent ⟨0, List.replicate 11 0⟩),
          (dictLookup m ch).isSome) ∧
        dictLookup m (h3_to_parent ⟨0, List.replicate 11 0⟩) =
          some (npMean ((h3_to_children (h3_to_parent ⟨0, List.replicate 11 0⟩)).map
            fun ch => (dictLookup m ch).getD 0)) :=
  ⟨by decide, fun _ => rfl,
    run_resolution_11_scenario 0 (List.replicate 11 0) (fun _ => ((0 : ℚ), (0 : ℚ)))
      (fun _ : ℤ × ℤ => (some fun _ _ => (1 : ℚ) : Option Tile)) (by decide) (fun _ => rfl)⟩

end ScenarioResolution11

end ElevationsPopulator
